import Mathlib

/-!
Verification of the orchestration loop of `src/backend/mcp_client.py`
(`MCPClient.process_query`) and the thin FastAPI wrapper in
`src/backend/main.py`.

The loop is shallowly embedded: the external reasoning engine
(`self.llm.messages.create`) is modelled as a finite trace of responses,
each of which is either a response (an ordered list of content blocks) or
a raised exception; the tool transport (`self.session.call_tool`) and the
JSON decoder (`json.loads`) are modelled as function parameters, so the
orchestrator's behaviour is proved for every engine, transport and decoder
behaviour at once.
-/

namespace MCPAgent

/-- A JSON-like value: the shape of Python values that flow through
`tool_input`, tool results and the serialized message list. -/
inductive JsonVal where
  | str (s : String)
  | num (n : Int)
  | bool (b : Bool)
  | null
  | arr (xs : List JsonVal)
  | obj (fields : List (String × JsonVal))

/-- One content block of a reasoning-engine response (`response.content`
in `process_query`): either a text block or a `tool_use` block carrying a
call identifier, tool name and argument mapping. -/
inductive RespBlock where
  | text (s : String)
  | toolUse (id name : String) (input : List (String × JsonVal))

/-- A content block as stored in `self.messages`: engine blocks plus the
`tool_result` dicts built by the loop (`tool_use_id`, `content`,
`is_error`; the source omits the `is_error` key on success, which the
serialization model reproduces). -/
inductive MsgBlock where
  | text (s : String)
  | toolUse (id name : String) (input : List (String × JsonVal))
  | toolResult (toolUseId : String) (content : List JsonVal) (isError : Bool)

/-- The `content` field of a message: a plain string (the user query
turn) or an ordered list of blocks. -/
inductive MsgContent where
  | str (s : String)
  | blocks (bs : List MsgBlock)

/-- One entry of `self.messages`: a role and a content. -/
structure Msg where
  role : String
  content : MsgContent

/-- One entry of `self.tools`, built in `connect_to_server` from the
advertised MCP tools (name, description, input schema). -/
structure ToolDescriptor where
  name : String
  description : String
  inputSchema : JsonVal

/-- The behaviour of `json.loads` on a string: a decoded value or a
raised decode error (message text). -/
abbrev JsonLoads := String → Except String JsonVal

/-- The behaviour of `self.session.call_tool`: given a tool name and the
parsed argument mapping, the tool transport returns `result.content` (an
opaque list of content values) or raises (error text). -/
abbrev CallTool := String → List (String × JsonVal) → Except String (List JsonVal)

/-- The content sniff of the dict comprehension,
`isinstance(v, str) and v.startswith('\x7b')` restricted to the string
case: a string starts with the one-character prefix `\x7b` exactly when
its first character is `\x7b`. -/
def startsWithBrace (s : String) : Bool :=
  match s.data with
  | [] => false
  | ch :: _ => ch == '\x7b'

/-- Argument normalization of a single value, from the dict comprehension
in `process_query`: a string value starting with `\x7b` is passed to
`json.loads` (whose failure propagates as an exception); every other
value is kept unchanged. -/
def normalizeArg (j : JsonLoads) (v : JsonVal) : Except String JsonVal :=
  match v with
  | JsonVal.str s => if startsWithBrace s then j s else Except.ok v
  | _ => Except.ok v

/-- Argument normalization of the whole `tool_input` mapping
(`tool_input_parsed` in the source): values are normalized in mapping
order and the first decode exception aborts the comprehension. -/
def normalizeArgs (j : JsonLoads) : List (String × JsonVal) →
    Except String (List (String × JsonVal))
  | [] => Except.ok []
  | (k, v) :: rest => do
    let v' ← normalizeArg j v
    let rest' ← normalizeArgs j rest
    Except.ok ((k, v') :: rest')

/-- The body of the per-call `try` block: normalize the arguments, then
dispatch to the tool transport; an exception from either step is the
error of the call. -/
def dispatchCall (j : JsonLoads) (c : CallTool) (name : String)
    (input : List (String × JsonVal)) : Except String (List JsonVal) :=
  match normalizeArgs j input with
  | Except.ok parsed => c name parsed
  | Except.error e => Except.error e

/-- The error payload built in the `except` branch:
`[{"type": "text", "text": f"Error executing tool: {e}"}]`. -/
def errText (e : String) : JsonVal :=
  JsonVal.obj [("type", JsonVal.str "text"),
               ("text", JsonVal.str ("Error executing tool: " ++ e))]

/-- Execute one `tool_use` block: a successful dispatch yields a
`tool_result` with the payload and no error flag; any exception is caught
and yields a `tool_result` with `is_error = True` and the error text. -/
def execToolUse (j : JsonLoads) (c : CallTool) (id name : String)
    (input : List (String × JsonVal)) : MsgBlock :=
  match dispatchCall j c name input with
  | Except.ok content => MsgBlock.toolResult id content false
  | Except.error e => MsgBlock.toolResult id [errText e] true

/-- Whether a response block is a `tool_use` block
(`block.type == "tool_use"`). -/
def isToolUse : RespBlock → Bool
  | RespBlock.toolUse _ _ _ => true
  | RespBlock.text _ => false

/-- `has_tool_call` in the source: whether any block of the response is a
`tool_use` block. -/
def hasToolCall (resp : List RespBlock) : Bool :=
  resp.any isToolUse

/-- The `(id, name, input)` of a block when it is a `tool_use` block. -/
def toolCallOf : RespBlock → Option (String × String × List (String × JsonVal))
  | RespBlock.toolUse id name input => some (id, name, input)
  | RespBlock.text _ => none

/-- The `tool_use` blocks of a response, in emitted order. -/
def toolCalls (resp : List RespBlock) :
    List (String × String × List (String × JsonVal)) :=
  resp.filterMap toolCallOf

/-- `tool_results` of one round: iterate the response blocks in order and
execute each `tool_use` block, skipping text blocks. -/
def toolRound (j : JsonLoads) (c : CallTool) (resp : List RespBlock) :
    List MsgBlock :=
  resp.filterMap fun b =>
    match b with
    | RespBlock.toolUse id name input => some (execToolUse j c id name input)
    | RespBlock.text _ => none

/-- Embed a response block into the message-block type. -/
def RespBlock.toMsgBlock : RespBlock → MsgBlock
  | RespBlock.text s => MsgBlock.text s
  | RespBlock.toolUse id name input => MsgBlock.toolUse id name input

/-- The initial user turn: `{"role": "user", "content": query}`. -/
def userMsg (query : String) : Msg :=
  ⟨"user", MsgContent.str query⟩

/-- The assistant turn appended for a response:
`{"role": "assistant", "content": response.content}`. -/
def assistantMsg (resp : List RespBlock) : Msg :=
  ⟨"assistant", MsgContent.blocks (resp.map RespBlock.toMsgBlock)⟩

/-- The turn carrying one round's tool results:
`{"role": "user", "content": tool_results}` (the spec's `tool-result`
Turn is realized with role `user` holding the list of `tool_result`
blocks). -/
def resultMsg (results : List MsgBlock) : Msg :=
  ⟨"user", MsgContent.blocks results⟩

/-- The extracted ID of a `tool_result` block. -/
def toolUseIdOf : MsgBlock → Option String
  | MsgBlock.toolResult tid _ _ => some tid
  | MsgBlock.text _ => none
  | MsgBlock.toolUse _ _ _ => none

/-- The `while True` loop of `process_query` over a finite trace of
engine behaviours. `Except.error` on the trace is an exception raised by
`self.llm.messages.create`, which the loop does not catch; an exhausted
trace stands for an engine call that never returns a value and is
likewise an engine-side failure. Each iteration appends the assistant
turn, and, when it contains a `tool_use` block, executes the round's
tools and appends the turn with their results before re-submitting. -/
def process_query_loop (j : JsonLoads) (c : CallTool) :
    List Msg → List (Except String (List RespBlock)) → Except String (List Msg)
  | _, [] => Except.error "no response from reasoning engine"
  | _, Except.error e :: _ => Except.error e
  | msgs, Except.ok resp :: rest =>
    if hasToolCall resp then
      process_query_loop j c
        (msgs ++ [assistantMsg resp] ++ [resultMsg (toolRound j c resp)]) rest
    else
      Except.ok (msgs ++ [assistantMsg resp])

/-- `process_query` up to (but not including) the final serialization:
the conversation store `self.messages` when the loop breaks. The first
statement of the method replaces the store with a fresh
`[{"role": "user", "content": query}]`, so the previous store `old` is
discarded; `tools` is forwarded only to the reasoning engine (here an
explicit trace), never consulted for dispatch. -/
def process_query_messages (j : JsonLoads) (c : CallTool)
    (tools : List ToolDescriptor) (old : List Msg) (query : String)
    (responses : List (Except String (List RespBlock))) :
    Except String (List Msg) :=
  process_query_loop j c [userMsg query] responses

/-- Serialization of one message block into a plain JSON-like dict, the
shape produced by `item.dict()` on engine blocks and by the
`tool_result` dicts the loop builds (success omits the `is_error`
key). -/
def serializeBlock : MsgBlock → JsonVal
  | MsgBlock.text s =>
    JsonVal.obj [("type", JsonVal.str "text"), ("text", JsonVal.str s)]
  | MsgBlock.toolUse id name input =>
    JsonVal.obj [("type", JsonVal.str "tool_use"), ("id", JsonVal.str id),
                 ("name", JsonVal.str name), ("input", JsonVal.obj input)]
  | MsgBlock.toolResult tid content false =>
    JsonVal.obj [("type", JsonVal.str "tool_result"),
                 ("tool_use_id", JsonVal.str tid),
                 ("content", JsonVal.arr content)]
  | MsgBlock.toolResult tid content true =>
    JsonVal.obj [("type", JsonVal.str "tool_result"),
                 ("tool_use_id", JsonVal.str tid),
                 ("content", JsonVal.arr content),
                 ("is_error", JsonVal.bool true)]

/-- Serialization of one message, from the loop at the end of
`process_query`: list content is serialized element-wise, string content
is kept as is. -/
def serializeMsg (m : Msg) : JsonVal :=
  match m.content with
  | MsgContent.str s =>
    JsonVal.obj [("role", JsonVal.str m.role), ("content", JsonVal.str s)]
  | MsgContent.blocks bs =>
    JsonVal.obj [("role", JsonVal.str m.role),
                 ("content", JsonVal.arr (bs.map serializeBlock))]

/-- `serializable_messages`: the whole store serialized in order. -/
def serializeMessages (msgs : List Msg) : List JsonVal :=
  msgs.map serializeMsg

/-- `MCPClient.process_query`: run the loop and return the serialized
conversation; an uncaught engine exception propagates to the caller. -/
def process_query (j : JsonLoads) (c : CallTool) (tools : List ToolDescriptor)
    (old : List Msg) (query : String)
    (responses : List (Except String (List RespBlock))) :
    Except String (List JsonVal) :=
  (process_query_messages j c tools old query responses).map serializeMessages

/-- The failure shape of the FastAPI endpoint: `HTTPException(500, detail)`. -/
structure HTTPFailure where
  status_code : Nat
  detail : String

/-- The `/query` endpoint of `src/backend/main.py`: forward to
`client.process_query`; any exception becomes an
`HTTPException(status_code=500, detail=str(e))`, so the caller receives
either the full serialized transcript or a query-level failure. -/
def endpoint_process_query (j : JsonLoads) (c : CallTool)
    (tools : List ToolDescriptor) (old : List Msg) (query : String)
    (responses : List (Except String (List RespBlock))) :
    Except HTTPFailure (List JsonVal) :=
  match process_query j c tools old query responses with
  | Except.ok msgs => Except.ok msgs
  | Except.error e => Except.error ⟨500, e⟩

/-- Modelled from the spec: the receiving side of the Serialization Layer
(§4.3) parses one serialized block back into structural form; no parser
exists under `src/` (the browser-facing layer consumes the JSON
directly), so this is the canonical inverse dictated by the spec's
requirement to preserve block kind and fields exactly. -/
def parseBlock : JsonVal → Option MsgBlock
  | JsonVal.obj [("type", JsonVal.str "text"), ("text", JsonVal.str s)] =>
    some (MsgBlock.text s)
  | JsonVal.obj [("type", JsonVal.str "tool_use"), ("id", JsonVal.str id),
                 ("name", JsonVal.str name), ("input", JsonVal.obj input)] =>
    some (MsgBlock.toolUse id name input)
  | JsonVal.obj [("type", JsonVal.str "tool_result"),
                 ("tool_use_id", JsonVal.str tid),
                 ("content", JsonVal.arr content)] =>
    some (MsgBlock.toolResult tid content false)
  | JsonVal.obj [("type", JsonVal.str "tool_result"),
                 ("tool_use_id", JsonVal.str tid),
                 ("content", JsonVal.arr content),
                 ("is_error", JsonVal.bool true)] =>
    some (MsgBlock.toolResult tid content true)
  | _ => none

/-- Modelled from the spec: parse a serialized block list, failing if any
element fails. -/
def parseBlocks : List JsonVal → Option (List MsgBlock)
  | [] => some []
  | x :: xs =>
    match parseBlock x, parseBlocks xs with
    | some b, some bs => some (b :: bs)
    | _, _ => none

/-- Modelled from the spec: parse one serialized Turn (role plus string
or block-list content). -/
def parseMsg : JsonVal → Option Msg
  | JsonVal.obj [("role", JsonVal.str r), ("content", JsonVal.str s)] =>
    some ⟨r, MsgContent.str s⟩
  | JsonVal.obj [("role", JsonVal.str r), ("content", JsonVal.arr items)] =>
    (parseBlocks items).map fun bs => ⟨r, MsgContent.blocks bs⟩
  | _ => none

/-- Modelled from the spec: parse a serialized Turn sequence, failing if
any Turn fails (must not silently drop Turns). -/
def parseMessages : List JsonVal → Option (List Msg)
  | [] => some []
  | x :: xs =>
    match parseMsg x, parseMessages xs with
    | some m, some ms => some (m :: ms)
    | _, _ => none

/-! ### Helper lemmas -/

/-- The loop only ever appends to the store: a successful run extends the
store it started from. -/
theorem loop_extends (j : JsonLoads) (c : CallTool) :
    ∀ (rs : List (Except String (List RespBlock))) (msgs out : List Msg),
      process_query_loop j c msgs rs = Except.ok out →
      ∃ tail, out = msgs ++ tail := by
  intro rs
  induction rs with
  | nil => intro msgs out h; exact absurd h (by simp [process_query_loop])
  | cons r rest ih =>
    intro msgs out h
    cases r with
    | error e => exact absurd h (by simp [process_query_loop])
    | ok resp =>
      by_cases htc : hasToolCall resp = true
      · rw [process_query_loop, if_pos htc] at h
        obtain ⟨tail, htail⟩ := ih _ _ h
        exact ⟨[assistantMsg resp] ++ [resultMsg (toolRound j c resp)] ++ tail,
          by simp [htail]⟩
      · rw [process_query_loop, if_neg htc] at h
        exact ⟨[assistantMsg resp], (Except.ok.injEq _ _).mp h |>.symm⟩

/-- If every engine response before `final` contains a tool call and
`final` contains none, the loop stops at `final` and the resulting store
ends with the assistant turn holding `final`. -/
theorem loop_terminal (j : JsonLoads) (c : CallTool) :
    ∀ (rs : List (List RespBlock)) (msgs : List Msg) (final : List RespBlock)
      (rest : List (Except String (List RespBlock))),
      (∀ r ∈ rs, hasToolCall r = true) → hasToolCall final = false →
      ∃ pre, process_query_loop j c msgs
          (rs.map Except.ok ++ Except.ok final :: rest) =
        Except.ok (pre ++ [assistantMsg final]) := by
  intro rs
  induction rs with
  | nil =>
    intro msgs final rest _ hfin
    refine ⟨msgs, ?_⟩
    rw [List.map_nil, List.nil_append, process_query_loop, if_neg (by simp [hfin])]
  | cons r rs' ih =>
    intro msgs final rest hall hfin
    have hr : hasToolCall r = true := hall r (List.mem_cons_self r rs')
    rw [List.map_cons, List.cons_append, process_query_loop, if_pos hr]
    exact ih _ final rest (fun x hx => hall x (List.mem_cons_of_mem r hx)) hfin

/-- If every engine response before a raised engine exception contains a
tool call, the exception propagates out of the loop unchanged. -/
theorem loop_engine_error (j : JsonLoads) (c : CallTool) :
    ∀ (rs : List (List RespBlock)) (msgs : List Msg) (e : String)
      (rest : List (Except String (List RespBlock))),
      (∀ r ∈ rs, hasToolCall r = true) →
      process_query_loop j c msgs (rs.map Except.ok ++ Except.error e :: rest) =
        Except.error e := by
  intro rs
  induction rs with
  | nil => intro msgs e rest _; rfl
  | cons r rs' ih =>
    intro msgs e rest hall
    have hr : hasToolCall r = true := hall r (List.mem_cons_self r rs')
    rw [List.map_cons, List.cons_append, process_query_loop, if_pos hr]
    exact ih _ e rest fun x hx => hall x (List.mem_cons_of_mem r hx)

/-- `execToolUse` answers exactly the identifier of the call it executes. -/
theorem toolUseIdOf_execToolUse (j : JsonLoads) (c : CallTool)
    (id name : String) (input : List (String × JsonVal)) :
    toolUseIdOf (execToolUse j c id name input) = some id := by
  rw [execToolUse]
  cases dispatchCall j c name input <;> rfl

/-- The round's results are exactly the executed `tool_use` blocks, in
emitted order. -/
theorem toolRound_eq_map (j : JsonLoads) (c : CallTool) :
    ∀ resp : List RespBlock,
      toolRound j c resp =
        (toolCalls resp).map fun t => execToolUse j c t.1 t.2.1 t.2.2 := by
  intro resp
  induction resp with
  | nil => rfl
  | cons b bs ih =>
    cases b with
    | text s => simpa [toolRound, toolCalls, toolCallOf] using ih
    | toolUse id name input => simpa [toolRound, toolCalls, toolCallOf] using ih

/-- Round-trip of a single block through the Serialization Layer. -/
theorem parseBlock_serializeBlock : ∀ b : MsgBlock,
    parseBlock (serializeBlock b) = some b := by
  intro b
  cases b with
  | text s => rfl
  | toolUse id name input => rfl
  | toolResult tid content isErr => cases isErr <;> rfl

/-- Round-trip of a block list through the Serialization Layer. -/
theorem parseBlocks_serialize : ∀ bs : List MsgBlock,
    parseBlocks (bs.map serializeBlock) = some bs := by
  intro bs
  induction bs with
  | nil => rfl
  | cons b rest ih =>
    rw [List.map_cons, parseBlocks, parseBlock_serializeBlock, ih]

/-- Round-trip of a single Turn through the Serialization Layer. -/
theorem parseMsg_serializeMsg : ∀ m : Msg,
    parseMsg (serializeMsg m) = some m := by
  intro m
  obtain ⟨r, content⟩ := m
  cases content with
  | str s => rfl
  | blocks bs => rw [serializeMsg, parseMsg, parseBlocks_serialize]; rfl

/-! ### Concrete oracles used by witnesses and counterexamples -/

/-- A `json.loads` behaviour that fails on every input, standing for a
decode error on a malformed serialized object. -/
def jsonLoadsFail : JsonLoads := fun _ => Except.error "Expecting value"

/-- A tool transport that succeeds and echoes the dispatched tool name as
its payload, making the dispatched identity observable. -/
def callToolEcho : CallTool := fun name _ => Except.ok [JsonVal.str name]

/-- A tool transport that raises on every call. -/
def callToolFail : CallTool := fun _ _ => Except.error "boom"

/-- A one-entry Tool Descriptor Set, as `connect_to_server` would build
from an advertised catalog. -/
def toolsCatalog : List ToolDescriptor :=
  [⟨"create_sql", "Creates a full SQLite query", JsonVal.obj []⟩]

/-! ### Claims -/

/-- C1: if dispatching a tool call fails for any reason, the round's
results contain a `tool_result` with `is_error = true`, the failing
call's identifier and the human-readable error text, and the loop
proceeds to the next reasoning-engine submission (the exception is
caught, not raised past the orchestrator). -/
theorem tool_failure_isolated (j : JsonLoads) (c : CallTool) (msgs : List Msg)
    (resp : List RespBlock) (rest : List (Except String (List RespBlock)))
    (id name : String) (input : List (String × JsonVal)) (e : String)
    (hmem : RespBlock.toolUse id name input ∈ resp)
    (hfail : dispatchCall j c name input = Except.error e) :
    MsgBlock.toolResult id [errText e] true ∈ toolRound j c resp ∧
    process_query_loop j c msgs (Except.ok resp :: rest) =
      process_query_loop j c
        (msgs ++ [assistantMsg resp] ++ [resultMsg (toolRound j c resp)])
        rest := by
  constructor
  · rw [toolRound]
    apply List.mem_filterMap.mpr
    exact ⟨RespBlock.toolUse id name input, hmem, by simp [execToolUse, hfail]⟩
  · have htc : hasToolCall resp = true := List.any_eq_true.mpr ⟨_, hmem, rfl⟩
    rw [process_query_loop, if_pos htc]

/-- Witness for C1 at a concrete failing transport. -/
theorem tool_failure_isolated_witness :
    MsgBlock.toolResult "i1" [errText "boom"] true ∈
      toolRound jsonLoadsFail callToolFail [RespBlock.toolUse "i1" "t" []] ∧
    process_query_loop jsonLoadsFail callToolFail []
        (Except.ok [RespBlock.toolUse "i1" "t" []] :: []) =
      process_query_loop jsonLoadsFail callToolFail
        ([] ++ [assistantMsg [RespBlock.toolUse "i1" "t" []]] ++
          [resultMsg (toolRound jsonLoadsFail callToolFail
            [RespBlock.toolUse "i1" "t" []])]) [] :=
  tool_failure_isolated jsonLoadsFail callToolFail [] _ [] "i1" "t" [] "boom"
    (List.mem_singleton.mpr rfl) rfl

/-- C2: for an engine trace whose responses all carry tool calls until a
response `final` with none, `process_query` terminates successfully and
the last Turn of the returned (serialized) sequence is the assistant Turn
holding `final`. -/
theorem terminates_with_final_assistant_turn (j : JsonLoads) (c : CallTool)
    (tools : List ToolDescriptor) (old : List Msg) (query : String)
    (rs : List (List RespBlock)) (final : List RespBlock)
    (rest : List (Except String (List RespBlock)))
    (hall : ∀ r ∈ rs, hasToolCall r = true)
    (hfin : hasToolCall final = false) :
    ∃ pre, process_query j c tools old query
        (rs.map Except.ok ++ Except.ok final :: rest) =
      Except.ok (pre ++ [serializeMsg (assistantMsg final)]) := by
  obtain ⟨pre, hpre⟩ := loop_terminal j c rs [userMsg query] final rest hall hfin
  refine ⟨serializeMessages pre, ?_⟩
  rw [process_query, process_query_messages, hpre]
  simp [serializeMessages, Except.map]

/-- Witness for C2: a single terminal text-only response. -/
theorem terminates_with_final_assistant_turn_witness :
    ∃ pre, process_query jsonLoadsFail callToolEcho toolsCatalog [] "q"
        (([] : List (List RespBlock)).map Except.ok ++
          Except.ok [RespBlock.text "hi"] :: []) =
      Except.ok (pre ++ [serializeMsg (assistantMsg [RespBlock.text "hi"])]) :=
  terminates_with_final_assistant_turn jsonLoadsFail callToolEcho toolsCatalog
    [] "q" [] [RespBlock.text "hi"] [] (by simp) rfl

/-- C3: for a response carrying tool calls, the results of the round are
exactly one outcome per call, positionally matched by call identifier and
in emitted order, all placed in the single turn appended right after the
assistant turn. -/
theorem round_outcomes_match_calls (j : JsonLoads) (c : CallTool)
    (msgs : List Msg) (resp : List RespBlock)
    (rest : List (Except String (List RespBlock)))
    (htc : hasToolCall resp = true) :
    toolRound j c resp =
      (toolCalls resp).map (fun t => execToolUse j c t.1 t.2.1 t.2.2) ∧
    (toolRound j c resp).map toolUseIdOf =
      (toolCalls resp).map (fun t => some t.1) ∧
    process_query_loop j c msgs (Except.ok resp :: rest) =
      process_query_loop j c
        (msgs ++ [assistantMsg resp] ++ [resultMsg (toolRound j c resp)])
        rest := by
  refine ⟨toolRound_eq_map j c resp, ?_, ?_⟩
  · rw [toolRound_eq_map, List.map_map]
    exact List.map_congr_left fun t _ =>
      toolUseIdOf_execToolUse j c t.1 t.2.1 t.2.2
  · rw [process_query_loop, if_pos htc]

/-- Witness for C3: a round with two tool calls separated by text. -/
theorem round_outcomes_match_calls_witness :
    toolRound jsonLoadsFail callToolEcho
        [RespBlock.toolUse "a" "t1" [], RespBlock.text "x",
         RespBlock.toolUse "b" "t2" []] =
      (toolCalls [RespBlock.toolUse "a" "t1" [], RespBlock.text "x",
         RespBlock.toolUse "b" "t2" []]).map
        (fun t => execToolUse jsonLoadsFail callToolEcho t.1 t.2.1 t.2.2) ∧
    (toolRound jsonLoadsFail callToolEcho
        [RespBlock.toolUse "a" "t1" [], RespBlock.text "x",
         RespBlock.toolUse "b" "t2" []]).map toolUseIdOf =
      (toolCalls [RespBlock.toolUse "a" "t1" [], RespBlock.text "x",
         RespBlock.toolUse "b" "t2" []]).map (fun t => some t.1) ∧
    process_query_loop jsonLoadsFail callToolEcho []
        (Except.ok [RespBlock.toolUse "a" "t1" [], RespBlock.text "x",
          RespBlock.toolUse "b" "t2" []] :: []) =
      process_query_loop jsonLoadsFail callToolEcho
        ([] ++ [assistantMsg [RespBlock.toolUse "a" "t1" [], RespBlock.text "x",
            RespBlock.toolUse "b" "t2" []]] ++
          [resultMsg (toolRound jsonLoadsFail callToolEcho
            [RespBlock.toolUse "a" "t1" [], RespBlock.text "x",
             RespBlock.toolUse "b" "t2" []])]) [] :=
  round_outcomes_match_calls jsonLoadsFail callToolEcho [] _ [] rfl

/-- C4 counterexample: a value that looks like a serialized object and
fails to decode is NOT passed through to the tool — the decode exception
is caught by the per-call handler and an `is_error = true` outcome is
recorded (so the claimed silent fallback does not happen; the echo
transport would have produced an `is_error = false` outcome carrying
`"toolA"` had it been reached). -/
theorem decode_failure_not_lenient :
    startsWithBrace "\x7bbad" = true ∧
    jsonLoadsFail "\x7bbad" = Except.error "Expecting value" ∧
    execToolUse jsonLoadsFail callToolEcho "i1" "toolA"
        [("q", JsonVal.str "\x7bbad")] =
      MsgBlock.toolResult "i1" [errText "Expecting value"] true :=
  ⟨rfl, rfl, rfl⟩

/-- C4 amended: a decode failure during argument normalization aborts the
dispatch and is recorded as an `is_error = true` tool outcome carrying
the decode error text; the original value is not passed through. -/
theorem decode_failure_yields_error_outcome (j : JsonLoads) (c : CallTool)
    (id name : String) (input : List (String × JsonVal)) (e : String)
    (hdec : normalizeArgs j input = Except.error e) :
    execToolUse j c id name input = MsgBlock.toolResult id [errText e] true := by
  rw [execToolUse, dispatchCall, hdec]

/-- Witness for the amended C4 at a concrete undecodable argument. -/
theorem decode_failure_yields_error_outcome_witness :
    normalizeArgs jsonLoadsFail [("q", JsonVal.str "\x7bbad")] =
      Except.error "Expecting value" ∧
    execToolUse jsonLoadsFail callToolEcho "i1" "toolA"
        [("q", JsonVal.str "\x7bbad")] =
      MsgBlock.toolResult "i1" [errText "Expecting value"] true :=
  ⟨rfl, decode_failure_yields_error_outcome jsonLoadsFail callToolEcho
    "i1" "toolA" [("q", JsonVal.str "\x7bbad")] "Expecting value" rfl⟩

/-- C5: a reasoning-engine failure reached after any number of completed
tool rounds propagates out of `process_query`; the endpoint converts it
into a query-level failure (`HTTPException` with status 500) instead of
returning a partial transcript. -/
theorem engine_failure_is_fatal (j : JsonLoads) (c : CallTool)
    (tools : List ToolDescriptor) (old : List Msg) (query : String)
    (rs : List (List RespBlock)) (e : String)
    (rest : List (Except String (List RespBlock)))
    (hall : ∀ r ∈ rs, hasToolCall r = true) :
    endpoint_process_query j c tools old query
        (rs.map Except.ok ++ Except.error e :: rest) =
      Except.error ⟨500, e⟩ := by
  have h := loop_engine_error j c rs [userMsg query] e rest hall
  unfold endpoint_process_query process_query process_query_messages
  rw [h]
  rfl

/-- Witness for C5: the engine fails on the very first submission. -/
theorem engine_failure_is_fatal_witness :
    endpoint_process_query jsonLoadsFail callToolEcho toolsCatalog [] "q"
        (([] : List (List RespBlock)).map Except.ok ++
          Except.error "timeout" :: []) =
      Except.error ⟨500, "timeout"⟩ :=
  engine_failure_is_fatal jsonLoadsFail callToolEcho toolsCatalog [] "q"
    [] "timeout" [] (by simp)

/-- C6 counterexample: the orchestrator performs no membership check
against the Tool Descriptor Set — a `tool_use` naming `"ghost_tool"`,
absent from the catalog, is dispatched to the transport (the echo
transport's payload proves the call reached it) and succeeds. -/
theorem unknown_tool_dispatched :
    (toolsCatalog.map ToolDescriptor.name).contains "ghost_tool" = false ∧
    process_query_messages jsonLoadsFail callToolEcho toolsCatalog [] "q"
        [Except.ok [RespBlock.toolUse "i1" "ghost_tool" []],
         Except.ok [RespBlock.text "done"]] =
      Except.ok [userMsg "q",
        assistantMsg [RespBlock.toolUse "i1" "ghost_tool" []],
        resultMsg [MsgBlock.toolResult "i1" [JsonVal.str "ghost_tool"] false],
        assistantMsg [RespBlock.text "done"]] :=
  ⟨rfl, rfl⟩

/-- C6 amended: the orchestrator performs no defensive membership check;
its dispatch behaviour and result are identical for every Tool Descriptor
Set, so a tool name absent from the set is dispatched like any other. -/
theorem no_descriptor_membership_check (j : JsonLoads) (c : CallTool)
    (tools₁ tools₂ : List ToolDescriptor) (old : List Msg) (query : String)
    (responses : List (Except String (List RespBlock))) :
    process_query j c tools₁ old query responses =
      process_query j c tools₂ old query responses := rfl

/-- C7: a successful dispatch records an outcome with `is_error = false`
whose content is exactly the transport's returned payload, unchanged. -/
theorem success_outcome_payload_unchanged (j : JsonLoads) (c : CallTool)
    (id name : String) (input parsed : List (String × JsonVal))
    (payload : List JsonVal)
    (hargs : normalizeArgs j input = Except.ok parsed)
    (hcall : c name parsed = Except.ok payload) :
    execToolUse j c id name input = MsgBlock.toolResult id payload false := by
  have hd : dispatchCall j c name input = Except.ok payload := by
    rw [dispatchCall, hargs]; exact hcall
  rw [execToolUse, hd]

/-- Witness for C7 with the echo transport. -/
theorem success_outcome_payload_unchanged_witness :
    execToolUse jsonLoadsFail callToolEcho "i1" "t" [] =
      MsgBlock.toolResult "i1" [JsonVal.str "t"] false :=
  success_outcome_payload_unchanged jsonLoadsFail callToolEcho "i1" "t"
    [] [] [JsonVal.str "t"] rfl rfl

/-- C8: serializing a Conversation Store and parsing it back yields the
same Turn sequence — same order, roles, block order and block fields. -/
theorem serialization_round_trip : ∀ S : List Msg,
    parseMessages (serializeMessages S) = some S := by
  intro S
  induction S with
  | nil => rfl
  | cons m ms ih =>
    rw [serializeMessages, List.map_cons, parseMessages,
        parseMsg_serializeMsg]
    rw [show ms.map serializeMsg = serializeMessages ms from rfl, ih]

/-- C9: the loop never removes or mutates an appended Turn — from any
point of the loop onward, the store at that point is a prefix of the
store at every later point, in particular of the final store. -/
theorem store_append_only (j : JsonLoads) (c : CallTool)
    (msgs : List Msg) (responses : List (Except String (List RespBlock)))
    (out : List Msg)
    (h : process_query_loop j c msgs responses = Except.ok out) :
    ∃ tail, out = msgs ++ tail :=
  loop_extends j c responses msgs out h

/-- Witness for C9 at a one-round concrete run. -/
theorem store_append_only_witness :
    ∃ tail, [userMsg "q", assistantMsg [RespBlock.text "hi"]] =
      [userMsg "q"] ++ tail :=
  store_append_only jsonLoadsFail callToolEcho [userMsg "q"]
    [Except.ok [RespBlock.text "hi"]]
    [userMsg "q", assistantMsg [RespBlock.text "hi"]] rfl

/-- C10: the result of `process_query` is independent of whatever store a
previous query left behind (the store is replaced with a fresh single
user Turn), and the returned sequence starts with the user Turn holding
the query string. -/
theorem fresh_store_per_query (j : JsonLoads) (c : CallTool)
    (tools : List ToolDescriptor) (old₁ old₂ : List Msg) (query : String)
    (responses : List (Except String (List RespBlock)))
    (out : List JsonVal)
    (h : process_query j c tools old₁ query responses = Except.ok out) :
    process_query j c tools old₂ query responses = Except.ok out ∧
    out.head? = some (serializeMsg (userMsg query)) := by
  refine ⟨h, ?_⟩
  rw [process_query, process_query_messages] at h
  cases hl : process_query_loop j c [userMsg query] responses with
  | error e => rw [hl] at h; exact absurd h (by simp [Except.map])
  | ok m =>
    rw [hl] at h
    obtain ⟨tail, htail⟩ := loop_extends j c responses [userMsg query] m hl
    have hout : serializeMessages m = out := (Except.ok.injEq _ _).mp h
    rw [← hout, htail, List.singleton_append, serializeMessages,
        List.map_cons]
    rfl

/-- Witness for C10 at a concrete trace and two distinct previous stores. -/
theorem fresh_store_per_query_witness :
    process_query jsonLoadsFail callToolEcho toolsCatalog
        [userMsg "stale"] "q" [Except.ok [RespBlock.text "hi"]] =
      Except.ok (serializeMessages
        [userMsg "q", assistantMsg [RespBlock.text "hi"]]) ∧
    (serializeMessages
        [userMsg "q", assistantMsg [RespBlock.text "hi"]]).head? =
      some (serializeMsg (userMsg "q")) :=
  fresh_store_per_query jsonLoadsFail callToolEcho toolsCatalog []
    [userMsg "stale"] "q" [Except.ok [RespBlock.text "hi"]]
    (serializeMessages [userMsg "q", assistantMsg [RespBlock.text "hi"]]) rfl

end MCPAgent
